import Mathlib

/-! eth-indexer: ERC20 call helpers and the node client

A shallow embedding of

* `contracts/utils.go`: `DecimalsMsg`, `DecodeDecimals`, `BalanceOfMsg`,
  `DecodeBalanceOf`, together with the parts of go-ethereum's `accounts/abi`
  package (1.8 series) and of Keccak-256 that these four functions run;
* `service/indexer/client.go`: `DumpBlock`, `ModifiedAccountStatesByNumber`
  and `GetERC20`.

Go values returned as `(value, error)` are pairs whose second component is an
`Option Error` (`none` is the nil error).  A Go nil slice is the empty list.
-/

namespace EthIndexer

/-! ## Basic data -/

/-- A Go `byte`. -/
abbrev Byte := Fin 256

/-- A Go `error` value, identified with its message. -/
abbrev Error := String

/-- The type `common.Address`, a `[20]byte`. -/
structure Address where
  bytes : List Byte
  size : bytes.length = 20
deriving DecidableEq

/-- The method `Address.Bytes`: the slice `a[:]`. -/
def Address.Bytes (a : Address) : List Byte := a.bytes

/-- How a Go call ends: it returns, or the goroutine panics. -/
inductive Outcome (α : Type) where
  | returned (v : α)
  | panicked (reason : String)
deriving DecidableEq, Repr

/-! ## Integers as text (`fmt` verb `%x`, `big.Int.String`) -/

/-- The digit table of `fmt` (`ldigits`). -/
def ldigits : List Char :=
  ['0', '1', '2', '3', '4', '5', '6', '7', '8', '9', 'a', 'b', 'c', 'd', 'e', 'f']

/-- The character of one digit. -/
def digitChar (d : Nat) : Char := ldigits.getD d '0'

/-- The digit loop of `fmt.fmtInteger` (and of `big.Int.Text`): while
`u >= base` the lowest digit is written in front of the buffer and `u` is
divided by the base; the last digit written is `u` itself.  The first argument
bounds the number of iterations. -/
def fmtDigits (base : Nat) : Nat → Nat → List Char → List Char
  | 0, u, buf => digitChar u :: buf
  | fuel + 1, u, buf =>
    if base ≤ u then fmtDigits base fuel (u / base) (digitChar (u % base) :: buf)
    else digitChar u :: buf

/-- The magnitude `u` written in `base`, most significant digit first. -/
def formatNat (base u : Nat) : List Char := fmtDigits base u u []

/-- A signed integer in the given base, as `fmt` and `math/big` write it: a
`-` sign for negative values, then the digits of the magnitude. -/
def formatInt (base : Nat) (x : Int) : String :=
  String.mk ((if x < 0 then ['-'] else []) ++ formatNat base x.natAbs)

/-- The value of one digit character, for digits and lowercase letters. -/
def digitVal (c : Char) : Nat :=
  if '0'.toNat ≤ c.toNat ∧ c.toNat ≤ '9'.toNat then c.toNat - '0'.toNat
  else if 'a'.toNat ≤ c.toNat ∧ c.toNat ≤ 'z'.toNat then c.toNat - 'a'.toNat + 10
  else 0

/-- Reading a digit string in the given base, most significant digit first. -/
def parseNat (base : Nat) (cs : List Char) : Nat :=
  cs.foldl (fun acc c => acc * base + digitVal c) 0

/-- The method `(*big.Int).String`: `"<nil>"` for a nil receiver, the decimal
text otherwise. -/
def bigString : Option Int → String
  | none => "<nil>"
  | some x => formatInt 10 x

/-- The call `fmt.Sprintf("0x%x", blockNr)` for an `int64`. -/
def sprintf0x (blockNr : Int) : String := "0x" ++ formatInt 16 blockNr

/-! ## Big-endian words -/

/-- The call `new(big.Int).SetBytes(b)`: the big-endian value of `b`. -/
def setBytes (b : List Byte) : Nat := b.foldl (fun acc x => acc * 256 + x.val) 0

/-- The `k` low-order bytes of `n`, big-endian. -/
def beBytes : Nat → Nat → List Byte
  | 0, _ => []
  | k + 1, n => beBytes k (n / 256) ++ [⟨n % 256, Nat.mod_lt _ (by decide)⟩]

/-- The ABI word of an unsigned integer: its big-endian magnitude, left-padded
with zero bytes to 32 bytes (`math.PaddedBigBytes(n, 32)` for `n < 2^256`). -/
def abiWord (n : Nat) : List Byte := beBytes 32 n

/-- The function `common.LeftPadBytes`. -/
def leftPadBytes (slice : List Byte) (l : Nat) : List Byte :=
  if l ≤ slice.length then slice
  else List.replicate (l - slice.length) 0 ++ slice

/-! ## Keccak-256 -/

namespace Keccak

/-- Rotation of a 64-bit lane to the left. -/
def rotl64 (x n : Nat) : Nat := ((x <<< n) ||| (x >>> (64 - n))) % 2 ^ 64

/-- The 24 round constants. -/
def roundConstants : List Nat :=
  [0x0000000000000001, 0x0000000000008082, 0x800000000000808A, 0x8000000080008000,
   0x000000000000808B, 0x0000000080000001, 0x8000000080008081, 0x8000000000008009,
   0x000000000000008A, 0x0000000000000088, 0x0000000080008009, 0x000000008000000A,
   0x000000008000808B, 0x800000000000008B, 0x8000000000008089, 0x8000000000008003,
   0x8000000000008002, 0x8000000000000080, 0x000000000000800A, 0x800000008000000A,
   0x8000000080008081, 0x8000000000008080, 0x0000000080000001, 0x8000000080008008]

/-- The rotation offsets of the lanes, lane `(x, y)` at position `x + 5 * y`. -/
def rotationOffsets : List Nat :=
  [0, 1, 62, 28, 27,
   36, 44, 6, 55, 20,
   3, 10, 43, 25, 39,
   41, 45, 15, 21, 8,
   18, 2, 61, 56, 14]

/-- Lane `(x, y)` of a state of 25 lanes, coordinates taken modulo 5. -/
def lane (a : List Nat) (x y : Nat) : Nat := a.getD (x % 5 + 5 * (y % 5)) 0

/-- The step θ. -/
def theta (a : List Nat) : List Nat :=
  let c := (List.range 5).map fun x =>
    lane a x 0 ^^^ lane a x 1 ^^^ lane a x 2 ^^^ lane a x 3 ^^^ lane a x 4
  let d := (List.range 5).map fun x =>
    c.getD ((x + 4) % 5) 0 ^^^ rotl64 (c.getD ((x + 1) % 5) 0) 1
  (List.range 25).map fun i => a.getD i 0 ^^^ d.getD (i % 5) 0

/-- The steps ρ and π: lane `(x, y)`, rotated, moves to `(y, 2x + 3y)`; the
lane that arrives at `(u, v)` is therefore `(u + 3v, u)`. -/
def rhoPi (a : List Nat) : List Nat :=
  (List.range 25).map fun i =>
    let x := (i % 5 + 3 * (i / 5)) % 5
    let y := i % 5
    rotl64 (lane a x y) (rotationOffsets.getD (x + 5 * y) 0)

/-- The step χ. -/
def chi (b : List Nat) : List Nat :=
  (List.range 25).map fun i =>
    let x := i % 5
    let y := i / 5
    lane b x y ^^^ ((lane b (x + 1) y ^^^ (2 ^ 64 - 1)) &&& lane b (x + 2) y)

/-- The step ι. -/
def iota (rc : Nat) : List Nat → List Nat
  | [] => []
  | h :: t => (h ^^^ rc) :: t

/-- One round. -/
def round (a : List Nat) (rc : Nat) : List Nat := iota rc (chi (rhoPi (theta a)))

/-- The permutation Keccak-f[1600]. -/
def keccakF (a : List Nat) : List Nat := roundConstants.foldl round a

/-- A lane from its bytes, little-endian. -/
def laneOfBytes (bs : List Nat) : Nat := bs.foldr (fun b acc => b + 256 * acc) 0

/-- The first `n` bytes of a lane, little-endian. -/
def bytesOfLane (n w : Nat) : List Nat := (List.range n).map fun i => (w >>> (8 * i)) % 256

/-- The first `k` lanes of a byte string. -/
def lanesOfBytes : Nat → List Nat → List Nat
  | 0, _ => []
  | k + 1, bs => laneOfBytes (bs.take 8) :: lanesOfBytes k (bs.drop 8)

/-- The rate of Keccak-256 in bytes. -/
def rate : Nat := 136

/-- The padding of the original Keccak: a `0x01` byte, zero bytes, and the top
bit of the last byte of the block. -/
def pad (msg : List Nat) : List Nat :=
  let q := rate - msg.length % rate
  if q = 1 then msg ++ [0x81]
  else msg ++ [0x01] ++ List.replicate (q - 2) 0 ++ [0x80]

/-- Absorbing one block of `rate` bytes. -/
def absorbBlock (st block : List Nat) : List Nat :=
  keccakF (List.zipWith (· ^^^ ·) st (lanesOfBytes 17 block ++ List.replicate 8 0))

/-- Absorbing `k` blocks. -/
def absorb : Nat → List Nat → List Nat → List Nat
  | 0, st, _ => st
  | k + 1, st, bs => absorb k (absorbBlock st (bs.take rate)) (bs.drop rate)

/-- The function `crypto.Keccak256` on one byte string. -/
def keccak256 (msg : List Nat) : List Nat :=
  let p := pad msg
  let st := absorb (p.length / rate) (List.replicate 25 0) p
  (st.take 4).flatMap (bytesOfLane 8)

end Keccak

/-- The UTF-8 bytes of one character. -/
def utf8Char (c : Char) : List Nat :=
  let v := c.toNat
  if v < 0x80 then [v]
  else if v < 0x800 then [0xC0 + v / 64, 0x80 + v % 64]
  else if v < 0x10000 then [0xE0 + v / 4096, 0x80 + v / 64 % 64, 0x80 + v % 64]
  else [0xF0 + v / 262144, 0x80 + v / 4096 % 64, 0x80 + v / 64 % 64, 0x80 + v % 64]

/-- The conversion `[]byte(s)` of a Go string. -/
def stringBytes (s : String) : List Nat := s.data.flatMap utf8Char

/-- A byte from a natural number. -/
def toByte (n : Nat) : Byte := ⟨n % 256, Nat.mod_lt _ (by decide)⟩

/-! ## The `accounts/abi` package: types, methods, packing and unpacking -/

/-- The values of `reflect.Kind` that the types below have. -/
inductive Kind where
  | Uint8 | Uint16 | Uint32 | Uint64 | Ptr | Array
deriving DecidableEq, Repr

/-- The static ABI types `uintN` and `address` (`abi.Type` with `T` equal to
`UintTy` or `AddressTy`). -/
inductive Ty where
  | uint (size : Nat)
  | address
deriving DecidableEq, Repr

/-- The Go kind of an ABI type (`reflectIntKindAndType` for integers: the
machine type for 8, 16, 32 and 64 bits, `*big.Int` otherwise). -/
def Ty.Kind : Ty → Kind
  | .uint size =>
    if size = 8 then .Uint8 else if size = 16 then .Uint16
    else if size = 32 then .Uint32 else if size = 64 then .Uint64 else .Ptr
  | .address => .Array

/-- The method `Type.String`: the canonical name of the type. -/
def Ty.String : Ty → String
  | .uint size => "uint" ++ String.mk (formatNat 10 size)
  | .address => "address"

/-- The Go values that are packed as arguments and produced by unpacking. -/
inductive Value where
  | uint8 (v : Byte)
  | uint16 (v : Nat)
  | uint32 (v : Nat)
  | uint64 (v : Nat)
  | bigInt (v : Int)
  | address (a : Address)
deriving DecidableEq

/-- The kind of a value (`reflect.Value.Kind`). -/
def Value.Kind : Value → Kind
  | .uint8 _ => .Uint8
  | .uint16 _ => .Uint16
  | .uint32 _ => .Uint32
  | .uint64 _ => .Uint64
  | .bigInt _ => .Ptr
  | .address _ => .Array

/-- The type `abi.Method`, for methods with one output. -/
structure Method where
  Name : String
  Inputs : List Ty
  Output : Ty
deriving DecidableEq

/-- The method `Method.Sig`: the name and the comma-separated input types in
parentheses. -/
def Method.Sig (m : Method) : String :=
  m.Name ++ "(" ++ ",".intercalate (m.Inputs.map Ty.String) ++ ")"

/-- The method `Method.Id`: the first four bytes of the Keccak-256 hash of the
signature. -/
def Method.Id (m : Method) : List Byte :=
  ((Keccak.keccak256 (stringBytes m.Sig)).take 4).map toByte

/-- The type `abi.ABI`: the constructor and the method table.  The event
table, which `Unpack` reads only for a name that is not a method, is left
out. -/
structure ABI where
  Constructor : List Ty
  Methods : List Method

/-- The zero value `abi.ABI{}`, which `abi.JSON` leaves behind when it fails. -/
def ABI.empty : ABI := { Constructor := [], Methods := [] }

/-- The map lookup `abi.Methods[name]`. -/
def ABI.method (abi : ABI) (name : String) : Option Method :=
  abi.Methods.find? fun m => m.Name == name

/-- The function `typeCheck` on static types: the kinds must agree. -/
def typeCheck (t : Ty) (value : Value) : Option Error :=
  if t.Kind ≠ value.Kind then some "abi: cannot use the value as type of the argument"
  else none

/-- The function `packNum`: the value modulo `2^256` as a 32-byte word.  An
address is not a number; `typeCheck` has excluded it before `packNum` runs. -/
def packNum : Value → List Byte
  | .uint8 v => abiWord v.val
  | .uint16 v => abiWord v
  | .uint32 v => abiWord v
  | .uint64 v => abiWord v
  | .bigInt v => abiWord (v % 2 ^ 256).toNat
  | .address _ => []

/-- The function `packElement`: a number for `UintTy`, the left-padded bytes
for `AddressTy`.  A value that is not an address has no bytes; `typeCheck` has
excluded it before `packElement` runs. -/
def packElement (t : Ty) (value : Value) : List Byte :=
  match t, value with
  | .uint _, v => packNum v
  | .address, .address a => leftPadBytes a.Bytes 32
  | .address, _ => []

/-- The method `Type.pack`: the type check, then the element. -/
def Ty.pack (t : Ty) (v : Value) : List Byte × Option Error :=
  match typeCheck t v with
  | some err => ([], some err)
  | none => (packElement t v, none)

/-- The loop of `Arguments.Pack` over the arguments. -/
def packLoop : List Ty → List Value → List Byte → List Byte × Option Error
  | input :: abiArgs, a :: args, ret =>
    match input.pack a with
    | (_, some err) => ([], some err)
    | (packed, none) => packLoop abiArgs args (ret ++ packed)
  | _, _, ret => (ret, none)

/-- The method `Arguments.Pack` for static types. -/
def Arguments.Pack (abiArgs : List Ty) (args : List Value) : List Byte × Option Error :=
  if args.length ≠ abiArgs.length then ([], some "argument count mismatch")
  else packLoop abiArgs args []

/-- The method `ABI.Pack`. -/
def ABI.Pack (abi : ABI) (name : String) (args : List Value) : List Byte × Option Error :=
  if name = "" then
    match Arguments.Pack abi.Constructor args with
    | (_, some err) => ([], some err)
    | (arguments, none) => (arguments, none)
  else
    match abi.method name with
    | none => ([], some ("method '" ++ name ++ "' not found"))
    | some method =>
      match Arguments.Pack method.Inputs args with
      | (_, some err) => ([], some err)
      | (arguments, none) => (method.Id ++ arguments, none)

/-- The last `k` bytes of a word as a big-endian number
(`binary.BigEndian.UintN(b[len(b)-k:])`). -/
def beTail (k : Nat) (b : List Byte) : Nat := setBytes (b.drop (b.length - k))

/-- The function `readInteger`. -/
def readInteger (kind : Kind) (b : List Byte) : Value :=
  match kind with
  | .Uint8 => .uint8 (b.getD (b.length - 1) 0)
  | .Uint16 => .uint16 (beTail 2 b)
  | .Uint32 => .uint32 (beTail 4 b)
  | .Uint64 => .uint64 (beTail 8 b)
  | _ => .bigInt (setBytes b)

/-- The function `common.BytesToAddress` on a 32-byte word: its last 20
bytes. -/
def bytesToAddress (b : List Byte) : Address :=
  { bytes := leftPadBytes ((b.drop (b.length - 20)).take 20) 20
    size := by
      have h := List.length_take_le 20 (b.drop (b.length - 20))
      unfold leftPadBytes
      split
      · omega
      · simp only [List.length_append, List.length_replicate]
        omega }

/-- The function `toGoType` on static types. -/
def toGoType (index : Nat) (t : Ty) (output : List Byte) : Except Error Value :=
  if index + 32 > output.length then
    .error "abi: cannot marshal in to go type: length insufficient"
  else
    let returnOutput := (output.drop index).take 32
    match t with
    | .uint _ => .ok (readInteger t.Kind returnOutput)
    | .address => .ok (.address (bytesToAddress returnOutput))

/-- The destination of an unpacking, a pointer to a fresh variable: which
values can be assigned to the variable, and whether the variable is itself a
pointer. -/
structure Dest (α : Type) where
  assign : Value → Option α
  isPtr : Bool

/-- The destination `new(uint8)`. -/
def Dest.uint8 : Dest Byte :=
  { assign := fun v => match v with
      | .uint8 x => some x
      | _ => none
    isPtr := false }

/-- The destination `new(*big.Int)`. -/
def Dest.bigInt : Dest Int :=
  { assign := fun v => match v with
      | .bigInt x => some x
      | _ => none
    isPtr := true }

/-- The function `set`: a value of the variable's type is assigned; otherwise
a variable that is not a pointer gives an error, and a nil pointer variable
is dereferenced, which panics. -/
def set {α : Type} (dst : Dest α) (src : Value) : Outcome (Except Error α) :=
  match dst.assign src with
  | some v => .returned (.ok v)
  | none =>
    if dst.isPtr then .panicked "reflect: call of reflect.Value.Type on zero Value"
    else .returned (.error "abi: cannot unmarshal the value in to the variable")

/-- The method `Arguments.Unpack` for one output (`unpackAtomic`). -/
def unpackAtomic {α : Type} (dst : Dest α) (t : Ty) (output : List Byte) :
    Outcome (Except Error α) :=
  match toGoType 0 t output with
  | .error err => .returned (.error err)
  | .ok marshalledValue => set dst marshalledValue

/-- The method `ABI.Unpack`: `ok v` stands for a nil error with `v` stored in
the variable. -/
def ABI.Unpack {α : Type} (abi : ABI) (dst : Dest α) (name : String) (output : List Byte) :
    Outcome (Except Error α) :=
  if output.length = 0 then .returned (.error "abi: unmarshalling empty output")
  else
    match abi.method name with
    | some method =>
      if output.length % 32 ≠ 0 then .returned (.error "abi: improperly formatted output")
      else unpackAtomic dst method.Output output
    | none => .returned (.error "abi: could not locate named method or event")

/-- Modelled from the spec: the interface description `ERC20TokenABI`, which
is not part of the two source files, as parsed by `abi.JSON`.  It holds the
accessors of the standard ERC20 method set whose types are static. -/
def erc20ABI : ABI :=
  { Constructor := []
    Methods :=
      [ { Name := "decimals", Inputs := [], Output := .uint 8 },
        { Name := "totalSupply", Inputs := [], Output := .uint 256 },
        { Name := "balanceOf", Inputs := [.address], Output := .uint 256 },
        { Name := "allowance", Inputs := [.address, .address], Output := .uint 256 } ] }

/-! ## `contracts/utils.go` -/

/-- The type `ethereum.CallMsg`, fields `To` and `Data`. -/
structure CallMsg where
  To : Option Address
  Data : List Byte
deriving DecidableEq

/-- The function `DecimalsMsg`: the error of `Pack` is discarded. -/
def DecimalsMsg (erc20ABI : ABI) (contractAddress : Address) : CallMsg :=
  let method := "decimals"
  let input := (erc20ABI.Pack method []).1
  { To := some contractAddress, Data := input }

/-- The function `DecodeDecimals`. -/
def DecodeDecimals (erc20ABI : ABI) (data : List Byte) : Outcome (Byte × Option Error) :=
  let method := "decimals"
  match erc20ABI.Unpack Dest.uint8 method data with
  | .panicked reason => .panicked reason
  | .returned (.error err) => .returned (0, some err)
  | .returned (.ok result) => .returned (result, none)

/-- The function `BalanceOfMsg`: the error of `Pack` is discarded. -/
def BalanceOfMsg (erc20ABI : ABI) (contractAddress account : Address) : CallMsg :=
  let method := "balanceOf"
  let input := (erc20ABI.Pack method [.address account]).1
  { To := some contractAddress, Data := input }

/-- The function `DecodeBalanceOf`: the first component is the `*big.Int`,
`none` for nil. -/
def DecodeBalanceOf (erc20ABI : ABI) (data : List Byte) :
    Outcome (Option Int × Option Error) :=
  let method := "balanceOf"
  match erc20ABI.Unpack Dest.bigInt method data with
  | .panicked reason => .panicked reason
  | .returned (.error err) => .returned (none, some err)
  | .returned (.ok result) => .returned (some result, none)

/-! ## `service/indexer/client.go` -/

/-- A positional parameter handed to the transport: the two kinds of value
that this file passes. -/
inductive RpcArg where
  | string (s : String)
  | uint64 (n : Nat)
deriving DecidableEq, Repr

/-- The field `rpc` of `client`, seen through `CallContext(ctx, result, method,
args...)` at the two result types used here: the call takes the variable that
receives the result, the method name and the positional parameters, and gives
the variable back together with the error. -/
structure RpcClient (Dump DirtyDump : Type) where
  CallContextDump : Dump → String → List RpcArg → Dump × Option Error
  CallContextDirtyDump : DirtyDump → String → List RpcArg → DirtyDump × Option Error

/-- The method `client.DumpBlock`; `zero` is the value `state.Dump{}`. -/
def DumpBlock {Dump DirtyDump : Type} (rpc : RpcClient Dump DirtyDump) (zero : Dump)
    (blockNr : Int) : Dump × Option Error :=
  let r := zero
  let (r, err) := rpc.CallContextDump r "debug_dumpBlock" [.string (sprintf0x blockNr)]
  (r, err)

/-- The method `client.ModifiedAccountStatesByNumber`; `zero` is the value
`state.DirtyDump{}`. -/
def ModifiedAccountStatesByNumber {Dump DirtyDump : Type} (rpc : RpcClient Dump DirtyDump)
    (zero : DirtyDump) (num : Nat) : DirtyDump × Option Error :=
  let r := zero
  let (r, err) :=
    rpc.CallContextDirtyDump r "debug_getModifiedAccountStatesByNumber" [.uint64 num]
  (r, err)

/-- Modelled from the spec: the record `model.ERC20` (TokenMetadata), which is
not part of the two source files: address, code, block number, decimals,
total supply as a decimal string, and name. -/
structure ERC20 where
  Address : List Byte
  Code : List Byte
  BlockNumber : Int
  Decimals : Int
  TotalSupply : String
  Name : String
deriving DecidableEq

/-- What the helper sends to the client during one sub-call
(`bind.BoundContract.Call` with the receiver of `GetERC20` as backend): nothing
when the input cannot be packed; otherwise one contract call for the latest
block; and, when that call returns no error and an empty output, a retrieval
of the code of the helper's address at the latest block on top of it. -/
inductive Exchange where
  | nothing
  | call
  | callThenCode
deriving DecidableEq, Repr

/-- Modelled from the spec: the ERC20 method-call helper `ERC20TokenCaller`
bound to one address, which is not part of the two source files.  Each of its
three sub-calls either succeeds with a decoded value or fails with a
reason; `exchange` tells, by method name, what the sub-call sends to the
client. -/
structure ERC20TokenCaller where
  decimals : Except Error Byte
  totalSupply : Except Error Int
  name : Except Error String
  exchange : String → Exchange

/-- Modelled from the spec: the accessor `Decimals` of the helper, as Go
returns it: the decoded value with a nil error, or the zero value of `uint8`
with the error. -/
def ERC20TokenCaller.Decimals (caller : ERC20TokenCaller) : Byte × Option Error :=
  match caller.decimals with
  | .ok v => (v, none)
  | .error err => (0, some err)

/-- Modelled from the spec: the accessor `TotalSupply` of the helper, as Go
returns it: the decoded integer with a nil error, or the zero value of
`*big.Int`, nil, with the error. -/
def ERC20TokenCaller.TotalSupply (caller : ERC20TokenCaller) : Option Int × Option Error :=
  match caller.totalSupply with
  | .ok v => (some v, none)
  | .error err => (none, some err)

/-- Modelled from the spec: the accessor `Name` of the helper, as Go returns
it: the decoded string with a nil error, or the empty string with the
error. -/
def ERC20TokenCaller.Name (caller : ERC20TokenCaller) : String × Option Error :=
  match caller.name with
  | .ok v => (v, none)
  | .error err => ("", some err)

/-- What `GetERC20` needs of its receiver: `CodeAt` of the embedded
`ethclient.Client` (a nil block number, `none`, asks for the latest block), and
`contracts.NewERC20TokenCaller` with the receiver as backend, which fails or
gives a helper. -/
structure Client where
  CodeAt : Address → Option Int → List Byte × Option Error
  NewERC20TokenCaller : Address → Except Error ERC20TokenCaller

/-- The requests that reach the client while `GetERC20` runs, the calls into
the `contracts` package and the warnings logged, in order.  A contract call is
recorded with its target and block number. -/
inductive Event where
  | CodeAt (account : Address) (blockNumber : Option Int)
  | CallContract (target : Address) (blockNumber : Option Int)
  | NewERC20TokenCaller (address : Address)
  | Decimals
  | TotalSupply
  | Name
  | Warn (msg : String) (err : Error)
deriving DecidableEq

/-- The statement `if err != nil { logger.Warn(msg, "err", err) }`. -/
def warnIf (msg : String) : Option Error → List Event
  | some err => [.Warn msg err]
  | none => []

/-- A call of `CodeAt` on the client: what it returns, and the request as the
client sees it. -/
def Client.codeAt (c : Client) (account : Address) (blockNumber : Option Int) :
    (List Byte × Option Error) × List Event :=
  (c.CodeAt account blockNumber, [Event.CodeAt account blockNumber])

/-- The requests of one sub-call of the helper bound to `address`, as the
client sees them. -/
def Client.subCall (c : Client) (address : Address) : Exchange → List Event
  | .nothing => []
  | .call => [Event.CallContract address none]
  | .callThenCode => Event.CallContract address none :: (c.codeAt address none).2

/-- The method `client.GetERC20`: the returned pair `(*model.ERC20, error)`
and the trace of requests and warnings. -/
def GetERC20 (c : Client) (addr : Address) (num : Int) :
    (Option ERC20 × Option Error) × List Event :=
  let ((code, err), trace) := c.codeAt addr none
  match err with
  | some err => ((none, some err), trace)
  | none =>
    let erc20 : ERC20 :=
      { Address := addr.Bytes, Code := code, BlockNumber := num,
        Decimals := 0, TotalSupply := "", Name := "" }
    let trace := trace ++ [Event.NewERC20TokenCaller addr]
    match c.NewERC20TokenCaller addr with
    | .error err =>
      ((some erc20, none), trace ++ [Event.Warn "Failed to initiate contract caller" err])
    | .ok caller =>
      -- Set decimals
      let (decimal, err) := caller.Decimals
      let trace := trace ++ Event.Decimals :: c.subCall addr (caller.exchange "decimals")
        ++ warnIf "Failed to get decimals" err
      let erc20 := { erc20 with Decimals := (decimal.val : Int) }
      -- Set total supply
      let (supply, err) := caller.TotalSupply
      let trace := trace ++ Event.TotalSupply :: c.subCall addr (caller.exchange "totalSupply")
        ++ warnIf "Failed to get total supply" err
      let erc20 := { erc20 with TotalSupply := bigString supply }
      -- Set name
      let (name, err) := caller.Name
      let trace := trace ++ Event.Name :: c.subCall addr (caller.exchange "name")
        ++ warnIf "Failed to get name" err
      let erc20 := { erc20 with Name := name }
      ((some erc20, none), trace)

/-- The requests of a trace that are code retrievals. -/
def Event.isCodeAt : Event → Bool
  | .CodeAt _ _ => true
  | _ => false

/-! ## Concrete inputs -/

/-- An address, twenty bytes `0x07`. -/
def exampleAddress : Address := ⟨List.replicate 20 7, by decide⟩

/-- A helper whose three sub-calls succeed. -/
def tokenCaller : ERC20TokenCaller :=
  { decimals := .ok 18, totalSupply := .ok 1000, name := .ok "Token"
    exchange := fun _ => .call }

/-- A helper of a token without `decimals` and `name`: the two contract calls
are answered with an error. -/
def partialCaller : ERC20TokenCaller :=
  { decimals := .error "execution reverted", totalSupply := .ok 1000
    name := .error "execution reverted"
    exchange := fun _ => .call }

/-- A helper of a token without `totalSupply`: the contract call is answered
with an error. -/
def noSupplyCaller : ERC20TokenCaller :=
  { decimals := .ok 18, totalSupply := .error "execution reverted", name := .ok "Token"
    exchange := fun _ => .call }

/-- A helper of a contract that answers every call with an empty output. -/
def silentCaller : ERC20TokenCaller :=
  { decimals := .error "abi: unmarshalling empty output"
    totalSupply := .error "abi: unmarshalling empty output"
    name := .error "abi: unmarshalling empty output"
    exchange := fun _ => .callThenCode }

/-- A client whose code retrieval fails. -/
def failingClient : Client :=
  { CodeAt := fun _ _ => ([], some "connection refused")
    NewERC20TokenCaller := fun _ => .ok tokenCaller }

/-- A client that holds different code at the latest block and at a numbered
block, and whose helper construction fails. -/
def pinnedClient : Client :=
  { CodeAt := fun _ blockNumber =>
      match blockNumber with
      | none => ([0x60, 0x80], none)
      | some _ => ([0x60, 0x60], none)
    NewERC20TokenCaller := fun _ => .error "no backend" }

/-- A client of a token without `decimals` and `name`. -/
def partialClient : Client :=
  { CodeAt := fun _ _ => ([0x60, 0x80], none)
    NewERC20TokenCaller := fun _ => .ok partialCaller }

/-- A client of a token without `totalSupply`. -/
def noSupplyClient : Client :=
  { CodeAt := fun _ _ => ([0x60, 0x80], none)
    NewERC20TokenCaller := fun _ => .ok noSupplyCaller }

/-- A client of a contract that answers every call with an empty output. -/
def silentClient : Client :=
  { CodeAt := fun _ _ => ([0x60, 0x80], none)
    NewERC20TokenCaller := fun _ => .ok silentCaller }

/-- A transport that answers every call with its first parameter as error
text. -/
def echoRpc : RpcClient Nat Nat :=
  { CallContextDump := fun r _ args =>
      match args with
      | [.string s] => (r + 1, some s)
      | _ => (r, none)
    CallContextDirtyDump := fun r _ args =>
      match args with
      | [.uint64 n] => (r + n, none)
      | _ => (r, some "bad parameters") }

/-! ## Lemmas: big-endian words -/

theorem beBytes_length (k n : Nat) : (beBytes k n).length = k := by
  induction k generalizing n with
  | zero => rfl
  | succ k ih => simp [beBytes, ih]

theorem setBytes_append_singleton (bs : List Byte) (b : Byte) :
    setBytes (bs ++ [b]) = setBytes bs * 256 + b.val := by
  simp [setBytes, List.foldl_append]

theorem setBytes_beBytes (k n : Nat) : setBytes (beBytes k n) = n % 256 ^ k := by
  induction k generalizing n with
  | zero => simp [beBytes, setBytes, Nat.mod_one]
  | succ k ih =>
    rw [beBytes, setBytes_append_singleton, ih]
    simp only []
    rw [Nat.pow_succ, Nat.mul_comm (256 ^ k) 256, Nat.mod_mul]
    omega

theorem beBytes_getLast (k n : Nat) :
    (beBytes (k + 1) n).getD k 0 = ⟨n % 256, Nat.mod_lt _ (by decide)⟩ := by
  rw [beBytes, List.getD_eq_getElem?_getD, List.getElem?_append_right (by simp [beBytes_length])]
  simp [beBytes_length]

theorem abiWord_length (n : Nat) : (abiWord n).length = 32 := beBytes_length 32 n

theorem erc20ABI_decimals :
    erc20ABI.method "decimals" = some { Name := "decimals", Inputs := [], Output := .uint 8 } := by
  decide

theorem erc20ABI_balanceOf :
    erc20ABI.method "balanceOf"
      = some { Name := "balanceOf", Inputs := [.address], Output := .uint 256 } := by
  decide


/-! ## Lemmas: unpacking a word -/

theorem toGoType_abiWord (t : Ty) (n : Nat) :
    toGoType 0 t (abiWord n) =
      match t with
      | .uint _ => .ok (readInteger t.Kind (abiWord n))
      | .address => .ok (.address (bytesToAddress (abiWord n))) := by
  have h : (abiWord n).length = 32 := abiWord_length n
  unfold toGoType
  rw [if_neg (by omega)]
  have : List.take 32 (List.drop 0 (abiWord n)) = abiWord n := by
    rw [List.drop_zero, ← h, List.take_length]
  simp only [this]

theorem abiWord_last (v : Nat) :
    (abiWord v).getD 31 0 = ⟨v % 256, Nat.mod_lt _ (by decide)⟩ := beBytes_getLast 31 v

theorem setBytes_abiWord (n : Nat) (h : n < 2 ^ 256) : setBytes (abiWord n) = n := by
  have e : (256 : Nat) ^ 32 = 2 ^ 256 := by norm_num
  rw [abiWord, setBytes_beBytes, e, Nat.mod_eq_of_lt h]

theorem kind_uint8 : (Ty.uint 8).Kind = .Uint8 := by decide

theorem kind_uint256 : (Ty.uint 256).Kind = .Ptr := by decide

theorem unpack_decimals_abiWord (v : Nat) :
    erc20ABI.Unpack Dest.uint8 "decimals" (abiWord v)
      = .returned (.ok ⟨v % 256, Nat.mod_lt _ (by decide)⟩) := by
  have hl : (abiWord v).length = 32 := abiWord_length v
  unfold ABI.Unpack
  rw [if_neg (by omega), erc20ABI_decimals]
  dsimp only
  rw [if_neg (by omega)]
  unfold unpackAtomic
  rw [toGoType_abiWord]
  dsimp only
  rw [kind_uint8]
  dsimp only [readInteger, set, Dest.uint8]
  rw [hl, abiWord_last]

theorem unpack_balanceOf_abiWord (n : Nat) :
    erc20ABI.Unpack Dest.bigInt "balanceOf" (abiWord n)
      = .returned (.ok (setBytes (abiWord n) : Int)) := by
  have hl : (abiWord n).length = 32 := abiWord_length n
  unfold ABI.Unpack
  rw [if_neg (by omega), erc20ABI_balanceOf]
  dsimp only
  rw [if_neg (by omega)]
  unfold unpackAtomic
  rw [toGoType_abiWord]
  dsimp only
  rw [kind_uint256]
  dsimp only [readInteger, set, Dest.bigInt]

/-! ## Lemmas: selectors and packing -/

set_option maxRecDepth 100000 in
theorem id_balanceOf :
    Method.Id { Name := "balanceOf", Inputs := [.address], Output := .uint 256 }
      = [0x70, 0xa0, 0x82, 0x31] := by decide!

set_option maxRecDepth 100000 in
theorem id_decimals :
    Method.Id { Name := "decimals", Inputs := [], Output := .uint 8 }
      = [0x31, 0x3c, 0xe5, 0x67] := by decide!

theorem leftPadBytes_address (a : Address) :
    leftPadBytes a.Bytes 32 = List.replicate 12 0 ++ a.bytes := by
  unfold leftPadBytes Address.Bytes
  rw [if_neg (by rw [a.size]; decide), a.size]

theorem pack_balanceOf (account : Address) :
    erc20ABI.Pack "balanceOf" [.address account]
      = ([0x70, 0xa0, 0x82, 0x31] ++ (List.replicate 12 0 ++ account.bytes), none) := by
  unfold ABI.Pack
  rw [if_neg (by decide), erc20ABI_balanceOf]
  simp only [Arguments.Pack, packLoop, Ty.pack, typeCheck, packElement, id_balanceOf,
    leftPadBytes_address]
  rfl

theorem pack_decimals :
    erc20ABI.Pack "decimals" [] = ([0x31, 0x3c, 0xe5, 0x67], none) := by
  unfold ABI.Pack
  rw [if_neg (by decide), erc20ABI_decimals]
  simp only [Arguments.Pack, packLoop, id_decimals]
  rfl

theorem pack_unknown (abi : ABI) (name : String) (args : List Value) (hn : name ≠ "")
    (h : abi.method name = none) :
    abi.Pack name args = ([], some ("method '" ++ name ++ "' not found")) := by
  unfold ABI.Pack
  rw [if_neg hn, h]

/-! ## Lemmas: digits -/

theorem digitVal_digitChar : ∀ d, d < 16 → digitVal (digitChar d) = d := by decide

theorem digitChar_mem : ∀ base, base ≤ 16 → ∀ d, d < base → digitChar d ∈ ldigits.take base := by
  decide

theorem digitChar_zero : ∀ d, d < 16 → digitChar d = '0' → d = 0 := by decide

theorem digitChar_eq : ∀ d, d < 16 → digitChar d = Nat.digitChar d := by decide

theorem foldl_fmtDigits (base : Nat) (hb : 2 ≤ base) (hb16 : base ≤ 16) (fuel : Nat) :
    ∀ u buf, u ≤ fuel →
      (fmtDigits base fuel u buf).foldl (fun acc c => acc * base + digitVal c) 0
        = buf.foldl (fun acc c => acc * base + digitVal c) u := by
  induction fuel with
  | zero =>
    intro u buf hu
    have : u = 0 := by omega
    subst this
    simp [fmtDigits, digitVal_digitChar]
  | succ fuel ih =>
    intro u buf hu
    unfold fmtDigits
    split
    · rename_i h
      have hlt : u / base < u := Nat.div_lt_self (by omega) (by omega)
      rw [ih _ _ (by omega)]
      simp only [List.foldl_cons]
      rw [digitVal_digitChar _ (by have := Nat.mod_lt u (show 0 < base by omega); omega)]
      rw [Nat.div_add_mod']
    · rename_i h
      simp only [List.foldl_cons]
      rw [digitVal_digitChar _ (by omega)]
      simp

theorem parseNat_formatNat (base : Nat) (hb : 2 ≤ base) (hb16 : base ≤ 16) (u : Nat) :
    parseNat base (formatNat base u) = u := by
  unfold parseNat formatNat
  rw [foldl_fmtDigits base hb hb16 u u [] (Nat.le_refl u)]
  rfl

theorem mem_fmtDigits (base : Nat) (hb : 2 ≤ base) (hb16 : base ≤ 16) (fuel : Nat) :
    ∀ u buf, u ≤ fuel → ∀ c ∈ fmtDigits base fuel u buf, c ∈ ldigits.take base ∨ c ∈ buf := by
  induction fuel with
  | zero =>
    intro u buf hu c hc
    have : u = 0 := by omega
    subst this
    simp only [fmtDigits, List.mem_cons] at hc
    rcases hc with rfl | hc
    · exact Or.inl (digitChar_mem base hb16 0 (by omega))
    · exact Or.inr hc
  | succ fuel ih =>
    intro u buf hu c hc
    unfold fmtDigits at hc
    split at hc
    · rename_i h
      have hlt : u / base < u := Nat.div_lt_self (by omega) (by omega)
      rcases ih _ _ (by omega) c hc with h1 | h1
      · exact Or.inl h1
      · simp only [List.mem_cons] at h1
        rcases h1 with rfl | h1
        · exact Or.inl (digitChar_mem base hb16 _ (Nat.mod_lt u (by omega)))
        · exact Or.inr h1
    · rename_i h
      simp only [List.mem_cons] at hc
      rcases hc with rfl | hc
      · exact Or.inl (digitChar_mem base hb16 u (by omega))
      · exact Or.inr hc

theorem mem_formatNat (base : Nat) (hb : 2 ≤ base) (hb16 : base ≤ 16) (u : Nat) :
    ∀ c ∈ formatNat base u, c ∈ ldigits.take base := by
  intro c hc
  rcases mem_fmtDigits base hb hb16 u u [] (Nat.le_refl u) c hc with h | h
  · exact h
  · cases h

theorem head_fmtDigits (base : Nat) (hb : 2 ≤ base) (hb16 : base ≤ 16) (fuel : Nat) :
    ∀ u buf, u ≤ fuel → 0 < u → (fmtDigits base fuel u buf).head? ≠ some '0' := by
  induction fuel with
  | zero =>
    intro u buf hu hpos
    omega
  | succ fuel ih =>
    intro u buf hu hpos
    unfold fmtDigits
    split
    · rename_i h
      have hlt : u / base < u := Nat.div_lt_self (by omega) (by omega)
      exact ih _ _ (by omega) (Nat.div_pos h (by omega))
    · rename_i h
      simp only [List.head?_cons, ne_eq, Option.some.injEq]
      intro h0
      have := digitChar_zero u (by omega) h0
      omega

theorem formatNat_zero (base : Nat) : formatNat base 0 = ['0'] := rfl

theorem toDigitsCore_eq_fmtDigits (fuel : Nat) :
    ∀ u buf, u ≤ fuel → Nat.toDigitsCore 10 (fuel + 1) u buf = fmtDigits 10 fuel u buf := by
  induction fuel with
  | zero =>
    intro u buf hu
    have : u = 0 := by omega
    subst this
    rfl
  | succ fuel ih =>
    intro u buf hu
    rw [Nat.toDigitsCore, fmtDigits]
    by_cases h : 10 ≤ u
    · have h1 : u / 10 ≠ 0 := by omega
      simp only [h1, if_false, h, if_true]
      rw [ih _ _ (by omega), digitChar_eq _ (by omega)]
    · have h1 : u / 10 = 0 := by omega
      simp only [h1, if_true, h, if_false]
      rw [digitChar_eq _ (by omega), Nat.mod_eq_of_lt (by omega)]

theorem formatNat_ten_eq_repr (u : Nat) : String.mk (formatNat 10 u) = Nat.repr u := by
  unfold formatNat Nat.repr Nat.toDigits List.asString
  rw [toDigitsCore_eq_fmtDigits u u [] (Nat.le_refl u)]


/-! ## Lemmas: the three sub-calls of `GetERC20` -/

/-- Once the code is retrieved and the helper is built, each field holds what
its accessor returned: a failed `decimals` leaves 0, a failed `name` leaves the
empty string, and a failed `totalSupply` leaves the text of a nil integer. -/
theorem getERC20_fields (c : Client) (addr : Address) (num : Int) (code : List Byte)
    (caller : ERC20TokenCaller) (hcode : c.CodeAt addr none = (code, none))
    (hcaller : c.NewERC20TokenCaller addr = .ok caller) :
    (GetERC20 c addr num).1 =
      (some { Address := addr.bytes, Code := code, BlockNumber := num,
              Decimals := (caller.Decimals.1.val : Int),
              TotalSupply := bigString caller.TotalSupply.1,
              Name := caller.Name.1 }, none) := by
  simp only [GetERC20, Client.codeAt, hcode, hcaller]
  rfl

theorem filter_warnIf (msg : String) (err : Option Error) :
    (warnIf msg err).filter Event.isCodeAt = [] := by
  cases err <;> rfl

theorem codeAt_of_mem_warnIf (msg : String) (err : Option Error) (e : Event)
    (h : e ∈ warnIf msg err) : e.isCodeAt = false := by
  cases err with
  | none => cases h
  | some x =>
    simp only [warnIf, List.mem_singleton] at h
    subst h
    rfl

theorem codeAt_of_mem_subCall (c : Client) (addr : Address) (x : Exchange) (e : Event)
    (h : e ∈ c.subCall addr x) (he : e.isCodeAt = true) : e = Event.CodeAt addr none := by
  cases x with
  | nothing => cases h
  | call =>
    simp only [Client.subCall, List.mem_singleton] at h
    subst h
    cases he
  | callThenCode =>
    simp only [Client.subCall, Client.codeAt, List.mem_cons, List.mem_singleton,
      List.not_mem_nil, or_false] at h
    rcases h with h | h
    · subst h
      cases he
    · exact h

/-- Every code retrieval in the trace of `GetERC20` is for `addr` at the
latest block. -/
theorem getERC20_codeAt_events (c : Client) (addr : Address) (num : Int) (e : Event)
    (h : e ∈ (GetERC20 c addr num).2) (he : e.isCodeAt = true) :
    e = Event.CodeAt addr none := by
  unfold GetERC20 at h
  simp only [Client.codeAt] at h
  rcases hq : c.CodeAt addr none with ⟨code, _ | err⟩ <;> simp only [hq] at h
  · cases hc : c.NewERC20TokenCaller addr with
    | error x =>
      simp only [hc, List.mem_append, List.mem_singleton] at h
      rcases h with (h | h) | h
      · exact h
      · subst h
        cases he
      · subst h
        cases he
    | ok caller =>
      simp only [hc, List.mem_append, List.mem_cons, List.mem_singleton, List.not_mem_nil,
        or_false] at h
      rcases h with ((((((h | h) | h | h) | h) | h | h) | h) | h | h) | h
      · exact h
      · subst h
        cases he
      · subst h
        cases he
      · exact codeAt_of_mem_subCall c addr _ e h he
      · rw [codeAt_of_mem_warnIf _ _ e h] at he
        cases he
      · subst h
        cases he
      · exact codeAt_of_mem_subCall c addr _ e h he
      · rw [codeAt_of_mem_warnIf _ _ e h] at he
        cases he
      · subst h
        cases he
      · exact codeAt_of_mem_subCall c addr _ e h he
      · rw [codeAt_of_mem_warnIf _ _ e h] at he
        cases he
  · simp only [List.mem_singleton] at h
    exact h

/-- When the helper cannot be built, the result holds the address, the code
and the block number, and the other fields are at their zero values. -/
theorem getERC20_construction_failure (c : Client) (addr : Address) (num : Int)
    (code : List Byte) (e : Error) (hcode : c.CodeAt addr none = (code, none))
    (hcaller : c.NewERC20TokenCaller addr = .error e) :
    (GetERC20 c addr num).1 =
      (some { Address := addr.bytes, Code := code, BlockNumber := num,
              Decimals := 0, TotalSupply := "", Name := "" }, none) := by
  simp only [GetERC20, Client.codeAt, hcode, hcaller]
  rfl

/-- A contract that answers the three sub-calls with an empty output: the
client sees four code retrievals, all of them for the latest block. -/
theorem getERC20_silent_trace :
    (GetERC20 silentClient exampleAddress 5).2.filter Event.isCodeAt
      = List.replicate 4 (Event.CodeAt exampleAddress none) := by
  decide

theorem failed_accessors (caller : ERC20TokenCaller) (e : Error) :
    (caller.decimals = .error e → caller.Decimals = (0, some e)) ∧
    (caller.totalSupply = .error e → caller.TotalSupply = (none, some e)) ∧
    (caller.name = .error e → caller.Name = ("", some e)) := by
  refine ⟨fun h => ?_, fun h => ?_, fun h => ?_⟩
  · simp only [ERC20TokenCaller.Decimals, h]
  · simp only [ERC20TokenCaller.TotalSupply, h]
  · simp only [ERC20TokenCaller.Name, h]

/-! ## The claims -/

/-- Claim C1: when the code retrieval that `GetERC20` performs fails with error
`e`, `GetERC20` returns a nil metadata object and exactly `e`, and the code
retrieval is the only request issued: the helper construction and the
decimals, totalSupply and name sub-calls are not attempted. -/
theorem getERC20_code_failure (c : Client) (addr : Address) (num : Int) (code : List Byte)
    (e : Error) (h : c.CodeAt addr none = (code, some e)) :
    GetERC20 c addr num = ((none, some e), [Event.CodeAt addr none]) := by
  simp only [GetERC20, Client.codeAt, h]

theorem getERC20_code_failure_witness :
    failingClient.CodeAt exampleAddress none = ([], some "connection refused") ∧
    GetERC20 failingClient exampleAddress 5
      = ((none, some "connection refused"), [Event.CodeAt exampleAddress none]) :=
  ⟨rfl, getERC20_code_failure failingClient exampleAddress 5 [] "connection refused" rfl⟩

/-- Claim C2: when the code retrieval succeeds with `code`, `GetERC20` returns a
metadata object and a nil error, whatever the helper construction and the
three sub-calls do; in the object `Address` is the 20 bytes of `addr`, `Code`
is `code` and `BlockNumber` is `num`. -/
theorem getERC20_best_effort (c : Client) (addr : Address) (num : Int) (code : List Byte)
    (h : c.CodeAt addr none = (code, none)) :
    ∃ erc20 : ERC20, (GetERC20 c addr num).1 = (some erc20, none) ∧
      erc20.Address = addr.bytes ∧ erc20.Address.length = 20 ∧
      erc20.Code = code ∧ erc20.BlockNumber = num := by
  simp only [GetERC20, Client.codeAt, h]
  cases c.NewERC20TokenCaller addr with
  | error err => exact ⟨_, rfl, rfl, addr.size, rfl, rfl⟩
  | ok caller => exact ⟨_, rfl, rfl, addr.size, rfl, rfl⟩

theorem getERC20_best_effort_witness :
    pinnedClient.CodeAt exampleAddress none = ([0x60, 0x80], none) ∧
    ∃ erc20 : ERC20, (GetERC20 pinnedClient exampleAddress 5).1 = (some erc20, none) ∧
      erc20.Address = exampleAddress.bytes ∧ erc20.Address.length = 20 ∧
      erc20.Code = [0x60, 0x80] ∧ erc20.BlockNumber = 5 :=
  ⟨rfl, getERC20_best_effort pinnedClient exampleAddress 5 [0x60, 0x80] rfl⟩

/-- Claim C3, at the input where the code departs from it: the code retrieval
and the helper construction succeed and the totalSupply sub-call fails,
returning a nil integer with its error.  `GetERC20` then stores the text
`<nil>` in `TotalSupply`, which is not the zero value of the field, the empty
string. -/
theorem getERC20_failed_totalSupply :
    (noSupplyClient.NewERC20TokenCaller exampleAddress = .ok noSupplyCaller ∧
      noSupplyCaller.totalSupply = .error "execution reverted" ∧
      noSupplyCaller.TotalSupply = (none, some "execution reverted")) ∧
    (GetERC20 noSupplyClient exampleAddress 5).1 =
      (some { Address := exampleAddress.bytes, Code := [0x60, 0x80], BlockNumber := 5,
              Decimals := 18, TotalSupply := "<nil>", Name := "Token" }, none) ∧
    (GetERC20 noSupplyClient exampleAddress 5).1.1.map ERC20.TotalSupply ≠ some "" :=
  ⟨⟨rfl, rfl, rfl⟩, by decide, by decide⟩

/-- Claim C4: when the code retrieval, the helper construction and the
totalSupply sub-call succeed, the latter with the non-negative integer `s`,
and the decimals and name sub-calls fail, `GetERC20` returns a nil error and a
metadata object with `Decimals` 0, `Name` empty and `TotalSupply` the base-10
text of `s`: the digits that `Nat.repr` gives, which read back as `s`. -/
theorem getERC20_partial_failure (c : Client) (addr : Address) (num : Int) (code : List Byte)
    (caller : ERC20TokenCaller) (s : Nat) (e1 e2 : Error)
    (hcode : c.CodeAt addr none = (code, none))
    (hcaller : c.NewERC20TokenCaller addr = .ok caller)
    (hdec : caller.decimals = .error e1)
    (hsupply : caller.totalSupply = .ok (s : Int))
    (hname : caller.name = .error e2) :
    (GetERC20 c addr num).1 =
      (some { Address := addr.bytes, Code := code, BlockNumber := num,
              Decimals := 0, TotalSupply := Nat.repr s, Name := "" }, none) ∧
    parseNat 10 (Nat.repr s).data = s := by
  have hs : ¬ ((s : Int) < 0) := by omega
  constructor
  · simp only [GetERC20, Client.codeAt, hcode, hcaller, ERC20TokenCaller.Decimals,
      ERC20TokenCaller.TotalSupply, ERC20TokenCaller.Name, hdec, hsupply, hname, bigString,
      formatInt, ← formatNat_ten_eq_repr]
    simp [Address.Bytes, hs]
  · rw [← formatNat_ten_eq_repr]
    exact parseNat_formatNat 10 (by decide) (by decide) s

theorem getERC20_partial_failure_witness :
    (partialClient.CodeAt exampleAddress none = ([0x60, 0x80], none) ∧
      partialClient.NewERC20TokenCaller exampleAddress = .ok partialCaller ∧
      partialCaller.decimals = .error "execution reverted" ∧
      partialCaller.totalSupply = .ok 1000 ∧
      partialCaller.name = .error "execution reverted") ∧
    (GetERC20 partialClient exampleAddress 5).1 =
      (some { Address := exampleAddress.bytes, Code := [0x60, 0x80], BlockNumber := 5,
              Decimals := 0, TotalSupply := Nat.repr 1000, Name := "" }, none) ∧
    parseNat 10 (Nat.repr 1000).data = 1000 :=
  ⟨⟨rfl, rfl, rfl, rfl, rfl⟩,
    getERC20_partial_failure partialClient exampleAddress 5 [0x60, 0x80]
      partialCaller 1000 "execution reverted" "execution reverted" rfl rfl rfl rfl rfl⟩

/-- Claim C5 fails: for block number 5 the only code retrieval that `GetERC20`
issues is for the latest block (a nil block number), not for block 5, and
the code stored is the latest code, not the code at block 5. -/
theorem getERC20_code_block_counterexample :
    (GetERC20 pinnedClient exampleAddress 5).2.filter Event.isCodeAt
      ≠ [Event.CodeAt exampleAddress (some 5)] ∧
    (GetERC20 pinnedClient exampleAddress 5).2.filter Event.isCodeAt
      = [Event.CodeAt exampleAddress none] ∧
    (pinnedClient.CodeAt exampleAddress (some 5)).1 = [0x60, 0x60] ∧
    (GetERC20 pinnedClient exampleAddress 5).1.1.map ERC20.Code = some [0x60, 0x80] := by
  decide

/-- Claim C5 as amended: for every `addr` and `num`, the code-retrieval
request that `GetERC20` issues is for the bytecode of `addr` at the latest
block (a nil block number), not at block number `num` or at any other numbered
block.  It is the first request; the error returned and the code stored are
the ones this retrieval gives; and every code retrieval that reaches the
client while `GetERC20` runs is for `addr` at the latest block. -/
theorem getERC20_code_latest (c : Client) (addr : Address) (num : Int) :
    (GetERC20 c addr num).2.head? = some (Event.CodeAt addr none) ∧
    (GetERC20 c addr num).1.2 = (c.CodeAt addr none).2 ∧
    (GetERC20 c addr num).1.1.map ERC20.Code
      = (match (c.CodeAt addr none).2 with
          | none => some (c.CodeAt addr none).1
          | some _ => none) ∧
    (∀ n : Int, Event.CodeAt addr (some n) ∉ (GetERC20 c addr num).2) ∧
    (GetERC20 c addr num).2.filter Event.isCodeAt
      = List.replicate ((GetERC20 c addr num).2.filter Event.isCodeAt).length
          (Event.CodeAt addr none) := by
  refine ⟨?_, ?_, ?_, ?_, ?_⟩
  · unfold GetERC20
    simp only [Client.codeAt]
    rcases c.CodeAt addr none with ⟨code, _ | err⟩
    · cases c.NewERC20TokenCaller addr <;> simp
    · simp
  · unfold GetERC20
    simp only [Client.codeAt]
    rcases c.CodeAt addr none with ⟨code, _ | err⟩
    · cases c.NewERC20TokenCaller addr <;> rfl
    · rfl
  · unfold GetERC20
    simp only [Client.codeAt]
    rcases c.CodeAt addr none with ⟨code, _ | err⟩
    · cases c.NewERC20TokenCaller addr <;> rfl
    · rfl
  · intro n hn
    have := getERC20_codeAt_events c addr num _ hn rfl
    cases this
  · refine List.eq_replicate_iff.mpr ⟨rfl, fun e he => ?_⟩
    rw [List.mem_filter] at he
    exact getERC20_codeAt_events c addr num e he.1 he.2

/-- Claim C6: decoding undoes the ABI word encoding.  For `v ≤ 255`,
`DecodeDecimals` on the 32-byte big-endian word of `v` returns `v` and a nil
error; for `n < 2^256`, the word of `n` has 32 bytes and big-endian value `n`,
and `DecodeBalanceOf` on it returns `n` and a nil error. -/
theorem decode_abiWord_roundtrip :
    (∀ v : Nat, ∀ h : v ≤ 255,
      DecodeDecimals erc20ABI (abiWord v) = .returned (⟨v, by omega⟩, none)) ∧
    (∀ n : Nat, n < 2 ^ 256 →
      (abiWord n).length = 32 ∧ setBytes (abiWord n) = n ∧
      DecodeBalanceOf erc20ABI (abiWord n) = .returned (some (n : Int), none)) := by
  constructor
  · intro v hv
    have e : v % 256 = v := Nat.mod_eq_of_lt (by omega)
    simp only [DecodeDecimals, unpack_decimals_abiWord, e]
  · intro n hn
    refine ⟨abiWord_length n, setBytes_abiWord n hn, ?_⟩
    simp only [DecodeBalanceOf, unpack_balanceOf_abiWord, setBytes_abiWord n hn]

theorem decode_abiWord_roundtrip_witness :
    ((18 : Nat) ≤ 255 ∧ DecodeDecimals erc20ABI (abiWord 18) = .returned (18, none)) ∧
    ((1000000 : Nat) < 2 ^ 256 ∧ (abiWord 1000000).length = 32 ∧
      setBytes (abiWord 1000000) = 1000000 ∧
      DecodeBalanceOf erc20ABI (abiWord 1000000) = .returned (some 1000000, none)) :=
  ⟨⟨by decide, decode_abiWord_roundtrip.1 18 (by decide)⟩,
    ⟨by decide, decode_abiWord_roundtrip.2 1000000 (by decide)⟩⟩

/-- Claim C7: on every byte sequence shorter than 32 bytes, the empty one
included, `DecodeBalanceOf` returns a nil value with a non-nil error and
`DecodeDecimals` returns 0 with a non-nil error, for every method table. -/
theorem decode_short_data (abi : ABI) (data : List Byte) (h : data.length < 32) :
    (∃ err, DecodeBalanceOf abi data = .returned (none, some err)) ∧
    (∃ err, DecodeDecimals abi data = .returned (0, some err)) := by
  by_cases h0 : data.length = 0
  · simp [DecodeBalanceOf, DecodeDecimals, ABI.Unpack, h0]
  · have hm : data.length % 32 ≠ 0 := by omega
    constructor
    · simp only [DecodeBalanceOf, ABI.Unpack, if_neg h0]
      cases abi.method "balanceOf" <;> simp [hm]
    · simp only [DecodeDecimals, ABI.Unpack, if_neg h0]
      cases abi.method "decimals" <;> simp [hm]

theorem decode_short_data_witness :
    ([0, 0, 18] : List Byte).length < 32 ∧
    (∃ err, DecodeBalanceOf erc20ABI [0, 0, 18] = .returned (none, some err)) ∧
    (∃ err, DecodeDecimals erc20ABI [0, 0, 18] = .returned (0, some err)) :=
  ⟨by decide, decode_short_data erc20ABI [0, 0, 18] (by decide)⟩

/-- Claim C8: `BalanceOfMsg c a` has target `c` and a payload of 36 bytes: the
selector `0x70a08231` of `balanceOf(address)`, 12 zero bytes and the 20 bytes
of `a`; `DecimalsMsg c` has target `c` and the payload `0x313ce567`, the
selector of `decimals()`.  Neither payload depends on `c`. -/
theorem call_messages (c a : Address) :
    BalanceOfMsg erc20ABI c a
        = { To := some c,
            Data := [0x70, 0xa0, 0x82, 0x31] ++ (List.replicate 12 0 ++ a.bytes) } ∧
      (BalanceOfMsg erc20ABI c a).Data.length = 36 ∧
      DecimalsMsg erc20ABI c = { To := some c, Data := [0x31, 0x3c, 0xe5, 0x67] } := by
  have h1 : BalanceOfMsg erc20ABI c a
        = { To := some c,
            Data := [0x70, 0xa0, 0x82, 0x31] ++ (List.replicate 12 0 ++ a.bytes) } := by
    simp only [BalanceOfMsg, pack_balanceOf]
  refine ⟨h1, ?_, ?_⟩
  · rw [h1]
    simp [a.size]
  · simp only [DecimalsMsg, pack_decimals]

/-- Claim C9 fails: with the empty method table, in which `decimals` and
`balanceOf` are unknown, `DecimalsMsg` and `BalanceOfMsg` each return a call
message, and its payload is empty. -/
theorem unknown_method_counterexample :
    ABI.empty.method "decimals" = none ∧ ABI.empty.method "balanceOf" = none ∧
    DecimalsMsg ABI.empty exampleAddress = { To := some exampleAddress, Data := [] } ∧
    BalanceOfMsg ABI.empty exampleAddress exampleAddress
      = { To := some exampleAddress, Data := [] } := by
  decide

/-- Claim C9 as amended: when the method name is unknown to the registry,
`Pack` fails with the error that the method is not found, and `DecimalsMsg`
and `BalanceOfMsg` discard that error: each returns a call message with the
contract address as target and an empty payload. -/
theorem unknown_method_message (abi : ABI) (c a : Address) :
    (abi.method "decimals" = none →
      (abi.Pack "decimals" []).2 = some "method 'decimals' not found" ∧
      DecimalsMsg abi c = { To := some c, Data := [] }) ∧
    (abi.method "balanceOf" = none →
      (abi.Pack "balanceOf" [.address a]).2 = some "method 'balanceOf' not found" ∧
      BalanceOfMsg abi c a = { To := some c, Data := [] }) := by
  constructor
  · intro h
    have hp := pack_unknown abi "decimals" [] (by decide) h
    refine ⟨by rw [hp]; rfl, ?_⟩
    simp only [DecimalsMsg, hp]
  · intro h
    have hp := pack_unknown abi "balanceOf" [.address a] (by decide) h
    refine ⟨by rw [hp]; rfl, ?_⟩
    simp only [BalanceOfMsg, hp]

theorem unknown_method_message_witness :
    (ABI.empty.method "decimals" = none ∧
      (ABI.empty.Pack "decimals" []).2 = some "method 'decimals' not found" ∧
      DecimalsMsg ABI.empty exampleAddress = { To := some exampleAddress, Data := [] }) ∧
    (ABI.empty.method "balanceOf" = none ∧
      (ABI.empty.Pack "balanceOf" [.address exampleAddress]).2
        = some "method 'balanceOf' not found" ∧
      BalanceOfMsg ABI.empty exampleAddress exampleAddress
        = { To := some exampleAddress, Data := [] }) :=
  ⟨⟨rfl, (unknown_method_message ABI.empty exampleAddress exampleAddress).1 rfl⟩,
    ⟨rfl, (unknown_method_message ABI.empty exampleAddress exampleAddress).2 rfl⟩⟩

/-- Claim C10: for a non-negative block number `n`, `DumpBlock` invokes
`debug_dumpBlock` with one parameter, the string `0x` followed by the digits
of `n`: lowercase hexadecimal digits, `0` alone for `n = 0` and no leading
zero otherwise, which read back in base 16 as `n`.
`ModifiedAccountStatesByNumber` invokes
`debug_getModifiedAccountStatesByNumber` with one parameter, `num` unchanged.
Each returns what the transport returns, its error included. -/
theorem debug_requests {Dump DirtyDump : Type} (rpc : RpcClient Dump DirtyDump)
    (zero : Dump) (dirtyZero : DirtyDump) (n num : Nat) :
    DumpBlock rpc zero (n : Int)
      = rpc.CallContextDump zero "debug_dumpBlock"
          [.string (String.mk ('0' :: 'x' :: formatNat 16 n))] ∧
    (∀ c ∈ formatNat 16 n, c ∈ ldigits) ∧
    parseNat 16 (formatNat 16 n) = n ∧
    (if n = 0 then formatNat 16 n = ['0'] else (formatNat 16 n).head? ≠ some '0') ∧
    ModifiedAccountStatesByNumber rpc dirtyZero num
      = rpc.CallContextDirtyDump dirtyZero "debug_getModifiedAccountStatesByNumber"
          [.uint64 num] := by
  have hs : ¬ ((n : Int) < 0) := by omega
  refine ⟨?_, ?_, parseNat_formatNat 16 (by decide) (by decide) n, ?_, rfl⟩
  · have e : sprintf0x (n : Int) = String.mk ('0' :: 'x' :: formatNat 16 n) := by
      simp only [sprintf0x, formatInt, if_neg hs, Int.natAbs_ofNat, List.nil_append]
      rfl
    simp only [DumpBlock, e]
  · intro c hc
    have := mem_formatNat 16 (by decide) (by decide) n c hc
    simpa using this
  · split
    · rename_i h
      subst h
      rfl
    · rename_i h
      exact head_fmtDigits 16 (by decide) (by decide) n n [] (Nat.le_refl n) (by omega)

end EthIndexer
